import Mathlib

/-!
# Verification of the unixsock wire protocol, server loop and client

A shallow embedding of the `vaitekunas/unixsock` Go repository:

* `unixsock.go` — the `communicator` message (Envelope), its JSON payload,
  the length-prefixed framing written by `Send` and parsed by `Receive`;
* `server/server.go` — the per-connection request-handler loop created by
  `newUnixRequestHandler`;
* `client/client.go` — the `unixSockClient` with its connection-reuse policy
  (`reconnect`) and the synchronous `Send` transaction.

Byte streams are `List Nat` (each element one octet).  The transport is the
spec's "bidirectional, ordered, reliable local byte stream": a read of `k`
bytes deterministically yields the next `min k available` bytes of the
stream, with end-of-file reported when the stream has fewer than `k` bytes.
Real-time aspects (`SetDeadline`, the `timeout` duration) are kept as inert
fields: deadlines are not representable in a functional embedding.

The payload serialization in the source is Go's external `encoding/json`
package.  It is modelled from the spec (§4.1: "a self-describing structured
serialization (e.g., JSON) of the Envelope fields") by an executable,
injective, structurally-parsed encoding over a tagged JSON value type
(spec §9 recommends exactly this tagged-variant modelling of the schema-less
`arguments`).  All definitions are structurally recursive so concrete frames
evaluate inside the kernel.
-/

namespace Unixsock

/-- Modelled from the spec: the dynamically-typed value space of `arguments`
(§3: "strings, numbers, booleans, nested mappings/sequences"), standing in
for Go's `interface{}` holding a JSON value. -/
inductive JVal where
  | null
  | bool (b : Bool)
  | num (i : Int)
  | str (s : String)
  | arr (elems : List JVal)
  | obj (fields : List (String × JVal))

/-! ## Primitive byte codecs (stand-in for `encoding/json`)

A base-128 varint for naturals, sign-byte plus magnitude for integers, a
single byte for booleans, and length-prefixed character sequences for
strings.  Parsers consume a prefix of the byte list and return the
unconsumed tail. -/

/-- Varint digits of `n`, low 7-bit group first; `fuel` bounds recursion
depth (any `fuel > n` is enough). -/
def natEncAux : Nat → Nat → List Nat
  | 0, _ => []
  | fuel+1, n => if n < 128 then [n] else (128 + n % 128) :: natEncAux fuel (n / 128)

/-- Encode a natural as a base-128 varint (continuation bit set on all but
the last byte). -/
def natEnc (n : Nat) : List Nat := natEncAux (n + 1) n

/-- Parse a base-128 varint off the front of a byte list. -/
def natParse : List Nat → Option (Nat × List Nat)
  | [] => none
  | b :: bs =>
    if b < 128 then some (b, bs)
    else
      match natParse bs with
      | none => none
      | some (m, r) => some (m * 128 + (b - 128), r)

/-- Encode an integer: sign byte then magnitude varint. -/
def encInt (i : Int) : List Nat :=
  if i < 0 then 1 :: natEnc (-i).toNat else 0 :: natEnc i.toNat

/-- Parse an integer: sign byte then magnitude varint. -/
def parseInt : List Nat → Option (Int × List Nat)
  | 0 :: bs => (natParse bs).map fun p => ((p.1 : Int), p.2)
  | 1 :: bs => (natParse bs).map fun p => (-(p.1 : Int), p.2)
  | _ => none

/-- Encode a boolean as one byte. -/
def encBool (b : Bool) : List Nat := [if b then 1 else 0]

/-- Parse a boolean byte. -/
def parseBool : List Nat → Option (Bool × List Nat)
  | 0 :: bs => some (false, bs)
  | 1 :: bs => some (true, bs)
  | _ => none

/-- Concatenate the encodings of the elements of a list. -/
def encList {α : Type} (f : α → List Nat) : List α → List Nat
  | [] => []
  | x :: xs => f x ++ encList f xs

/-- Run parser `p` exactly `n` times, collecting the results. -/
def parseList {α : Type} (p : List Nat → Option (α × List Nat)) :
    Nat → List Nat → Option (List α × List Nat)
  | 0, bs => some ([], bs)
  | n+1, bs =>
    match p bs with
    | none => none
    | some (v, bs1) =>
      match parseList p n bs1 with
      | none => none
      | some (vs, bs2) => some (v :: vs, bs2)

/-- Encode one character as the varint of its code point. -/
def encChar (c : Char) : List Nat := natEnc c.toNat

/-- Parse one character: a varint code point. -/
def parseChar (bs : List Nat) : Option (Char × List Nat) :=
  (natParse bs).map fun p => (Char.ofNat p.1, p.2)

/-- Encode a string: character count, then each character. -/
def encStr (s : String) : List Nat :=
  natEnc s.data.length ++ encList encChar s.data

/-- Parse a string: character count, then that many characters. -/
def parseStr (bs : List Nat) : Option (String × List Nat) :=
  match natParse bs with
  | none => none
  | some (n, r) =>
    match parseList parseChar n r with
    | none => none
    | some (cs, r1) => some (String.mk cs, r1)

mutual

/-- Encode a JSON value: a tag byte, then the tagged content; sequences and
mappings are length-prefixed. -/
def encJVal : JVal → List Nat
  | .null => [0]
  | .bool b => 1 :: encBool b
  | .num i => 2 :: encInt i
  | .str s => 3 :: encStr s
  | .arr xs => 4 :: natEnc xs.length ++ encJValList xs
  | .obj fs => 5 :: natEnc fs.length ++ encJValFields fs

/-- Encode the elements of a JSON sequence in order. -/
def encJValList : List JVal → List Nat
  | [] => []
  | v :: vs => encJVal v ++ encJValList vs

/-- Encode the key/value pairs of a JSON mapping in order. -/
def encJValFields : List (String × JVal) → List Nat
  | [] => []
  | kv :: fs => (encStr kv.1 ++ encJVal kv.2) ++ encJValFields fs

end

/-- Parse a JSON value; `fuel` bounds the recursion (any
`fuel ≥` the input length is enough). -/
def parseJVal : Nat → List Nat → Option (JVal × List Nat)
  | 0, _ => none
  | fuel+1, bs =>
    match bs with
    | 0 :: r => some (.null, r)
    | 1 :: r => (parseBool r).map fun p => (.bool p.1, p.2)
    | 2 :: r => (parseInt r).map fun p => (.num p.1, p.2)
    | 3 :: r => (parseStr r).map fun p => (.str p.1, p.2)
    | 4 :: r =>
      match natParse r with
      | none => none
      | some (n, r1) =>
        match parseList (fun b => parseJVal fuel b) n r1 with
        | none => none
        | some (xs, r2) => some (.arr xs, r2)
    | 5 :: r =>
      match natParse r with
      | none => none
      | some (n, r1) =>
        match parseList (fun b =>
            match parseStr b with
            | none => none
            | some (k, rk) =>
              match parseJVal fuel rk with
              | none => none
              | some (v, rv) => some ((k, v), rv)) n r1 with
        | none => none
        | some (fs, r2) => some (.obj fs, r2)
    | _ => none

/-! ## Data model (`unixsock.go`) -/

/-- Status constant `STATUS_OK = "success"`. -/
def STATUS_OK : String := "success"

/-- Status constant `STATUS_FAIL = "failure"`. -/
def STATUS_FAIL : String := "failure"

/-- `Args` is a shorthand for a map of strings to (JSON) values
(`map[string]interface{}` in the source, serialized as a JSON object). -/
abbrev Args : Type := List (String × JVal)

/-- `Response` contains a response from the UnixManager:
`Status`, `Error`, `Payload` strings. -/
structure Response where
  Status : String
  Error : String
  Payload : String
deriving DecidableEq

/-- The `communicator` struct: a command sent over the unix socket.
`Cmd`, `Args`, `Response`, `Respond`, `Close` are the JSON-tagged fields; the
`Response` pointer (`*Response`, nilable) is an `Option`.  `maxLength` and
`timeout` are the unexported option fields (not serialized); the `net.Conn`
is the byte stream passed explicitly to `Send`/`Receive`. -/
structure communicator where
  Cmd : String
  Args : Args
  Response : Option Response
  Respond : Bool
  Close : Bool
  maxLength : Nat
  timeout : Nat

/-! ## Payload serialization (stand-in for `json.Marshal` / `json.Unmarshal`) -/

/-- Encode an `Args` object: field count, then each key/value pair (the
same layout as a `JVal.obj` body). -/
def encArgs (fs : Args) : List Nat :=
  natEnc fs.length ++ encJValFields fs

/-- Parse an `Args` object with value-parser fuel `pf`. -/
def parseArgs (pf : Nat) (bs : List Nat) : Option (Args × List Nat) :=
  match natParse bs with
  | none => none
  | some (n, r) =>
    parseList (fun b =>
      match parseStr b with
      | none => none
      | some (k, rk) =>
        match parseJVal pf rk with
        | none => none
        | some (v, rv) => some ((k, v), rv)) n r

/-- Encode the optional `Response` substructure (`null` or the three
strings). -/
def encOptResponse : Option Response → List Nat
  | none => [0]
  | some r => 1 :: (encStr r.Status ++ encStr r.Error ++ encStr r.Payload)

/-- Parse the optional `Response` substructure. -/
def parseOptResponse : List Nat → Option (Option Response × List Nat)
  | 0 :: bs => some (none, bs)
  | 1 :: bs =>
    (match parseStr bs with
     | none => none
     | some (st, r1) =>
       match parseStr r1 with
       | none => none
       | some (er, r2) =>
         match parseStr r2 with
         | none => none
         | some (pl, r3) => some (some ⟨st, er, pl⟩, r3))
  | _ => none

/-- Modelled from the spec: `json.Marshal` of a `communicator` — the
self-describing serialization of the five tagged fields `cmd`, `args`,
`response`, `respond`, `close` (§4.1); unexported fields are not
serialized. -/
def jsonMarshal (s : communicator) : List Nat :=
  encStr s.Cmd ++ encArgs s.Args ++ encOptResponse s.Response ++
    encBool s.Respond ++ encBool s.Close

/-- Parse the five payload fields in order, building a fresh zero-valued
`communicator` (Go's `&communicator{}`: `maxLength = 0`, `timeout = 0`). -/
def parsePayload (pf : Nat) (bs : List Nat) : Option (communicator × List Nat) :=
  match parseStr bs with
  | none => none
  | some (cmd, r1) =>
    match parseArgs pf r1 with
    | none => none
    | some (args, r2) =>
      match parseOptResponse r2 with
      | none => none
      | some (resp, r3) =>
        match parseBool r3 with
        | none => none
        | some (rsp, r4) =>
          match parseBool r4 with
          | none => none
          | some (cls, r5) => some (⟨cmd, args, resp, rsp, cls, 0, 0⟩, r5)

/-- Modelled from the spec: `json.Unmarshal` into a fresh `&communicator{}` —
fails on malformed payload or trailing bytes.  The parser fuel
`bs.length` dominates the nesting depth of any value encoded in `bs`. -/
def jsonUnmarshal (bs : List Nat) : Option communicator :=
  match parsePayload bs.length bs with
  | some (m, []) => some m
  | _ => none

/-! ## Framing (`communicator.Send` / `communicator.Receive`) -/

/-- Big-endian bytes of `uint32(n)`, as written by
`binary.BigEndian.PutUint32(length, uint32(len(message)))`. -/
def putUint32 (n : Nat) : List Nat :=
  [n / 16777216 % 256, n / 65536 % 256, n / 256 % 256, n % 256]

/-- `binary.BigEndian.Uint32`: big-endian value of a 4-byte buffer. -/
def beUint32 (bs : List Nat) : Nat :=
  bs.foldl (fun acc b => acc * 256 + b) 0

/-- Conversion to `uint32` (Go's wrapping integer conversion). -/
def toUint32 (n : Nat) : Nat := n % 4294967296

/-- The fixed delimiter byte `":"` written between length prefix and
payload. -/
def delimByte : Nat := 58

/-- Errors `Receive` can return, one per `fmt.Errorf` site in the source:
short length read, short content read reported without an I/O error, content
read failing with a non-EOF-tolerated error, and `json.Unmarshal` failure.
In the deterministic stream model a short content read always comes with
end-of-file, so it surfaces as `readFailed`; `shortMessage` is the
`err == nil` branch, reachable only under partial reads of a still-open
connection. -/
inductive RecvError where
  | lengthFailed
  | shortMessage (n msgLen : Nat)
  | readFailed
  | unmarshalFailed
deriving DecidableEq

/-- Spec §7 error taxonomy: every `Receive` error except the
`json.Unmarshal` failure is a framing error (short/malformed length or
payload read); the unmarshal failure is the distinct decode error. -/
def RecvError.isFraming : RecvError → Bool
  | .unmarshalFailed => false
  | _ => true

/-- The frame-reading core of `communicator.Receive`: read 4 length bytes
(fewer available ⇒ `n != 4 || err != nil` ⇒ failure); compute
`msgLen := binary.BigEndian.Uint32(length) + 1` in `uint32` arithmetic;
read `msgLen` content bytes (fewer available ⇒ EOF with `n != msgLen` ⇒
failure); drop the leading delimiter byte and unmarshal the remainder.
Returns the decoded fresh message and the unconsumed stream. -/
def recvFrame (stream : List Nat) : Except RecvError (communicator × List Nat) :=
  if stream.length < 4 then .error .lengthFailed
  else
    let msgLen := toUint32 (beUint32 (stream.take 4) + 1)
    let rest := stream.drop 4
    if rest.length < msgLen then .error .readFailed
    else
      match jsonUnmarshal ((rest.take msgLen).drop 1) with
      | none => .error .unmarshalFailed
      | some newMsg => .ok (newMsg, rest.drop msgLen)

/-- `communicator.Send`: marshal the message, prefix the 4-byte big-endian
`uint32` length and the delimiter byte, and write the frame.  The reliable
stream accepts the whole write, so the produced frame is returned. -/
def communicator.Send (s : communicator) : List Nat :=
  putUint32 (toUint32 (jsonMarshal s).length) ++ delimByte :: jsonMarshal s

/-- `communicator.Receive`: read one frame from `stream` and overwrite the
receiver's five serialized fields with the decoded values (the source's
final assignments `s.Cmd = newMsg.Cmd`, …, executed only after every
fallible step has succeeded).  Returns the updated receiver and the
unconsumed stream. -/
def communicator.Receive (s : communicator) (stream : List Nat) :
    Except RecvError (communicator × List Nat) :=
  (recvFrame stream).map fun p =>
    ({ s with Cmd := p.1.Cmd, Args := p.1.Args, Response := p.1.Response,
              Respond := p.1.Respond, Close := p.1.Close }, p.2)

/-- `communicator.Options`: set `Respond`, `Close`, `maxLength`,
`timeout`. -/
def communicator.Options (s : communicator) (maxLength timeout : Nat)
    (respond close : Bool) : communicator :=
  { s with Respond := respond, Close := close,
           maxLength := maxLength, timeout := timeout }

/-- `newCommunicator`: a new socket message with default options
(`maxLength = 1 << 20`, `timeout` 5 time units). -/
def newCommunicator (cmd : String) (args : Args) (resp : Option Response)
    (respond close : Bool) : communicator :=
  { Cmd := cmd, Args := args, Response := resp, Respond := respond,
    Close := close, maxLength := 1048576, timeout := 5 }

/-- `NewSender`: a blank message for the sender (fresh empty `&Response{}`). -/
def NewSender (cmd : String) (args : Args) (respond close : Bool) : communicator :=
  newCommunicator cmd args (some ⟨"", "", ""⟩) respond close

/-- `NewReceiver`: a blank message for the receiver (`respond = close = true`). -/
def NewReceiver : communicator :=
  newCommunicator "" [] (some ⟨"", "", ""⟩) true true

/-- `GetCmd`. -/
def communicator.GetCmd (s : communicator) : String := s.Cmd

/-- `GetArgs`. -/
def communicator.GetArgs (s : communicator) : Unixsock.Args := s.Args

/-- `GetResponse`. -/
def communicator.GetResponse (s : communicator) : Option Unixsock.Response :=
  s.Response

/-- `SetResponse`. -/
def communicator.SetResponse (s : communicator) (resp : Option Unixsock.Response) :
    communicator := { s with Response := resp }

/-- `ShouldRespond`. -/
def communicator.ShouldRespond (s : communicator) : Bool := s.Respond

/-- `ShouldClose`. -/
def communicator.ShouldClose (s : communicator) : Bool := s.Close

/-! ## Server (`server/server.go`) -/

/-- How a server-side connection session ends: a decode/framing error
(treated as a clean end of session), the received Envelope's close request,
or fuel exhaustion (used only to make the loop a total function; every
theorem supplies enough fuel). -/
inductive SessionEnd where
  | recvError (e : RecvError)
  | closedByRequest
  | outOfFuel
deriving DecidableEq

/-- The per-connection loop of `newUnixRequestHandler(handler)`: receive a
command into a fresh `NewReceiver`, break on error; call the handler with
the received command and arguments; if the received Envelope requested a
response, set the handler's response on it and send it back (the send's
error is ignored in the source); if it requested closure, stop; otherwise
loop on the remaining stream.  Returns the list of response frames sent and
how the session ended. -/
def newUnixRequestHandler (handler : String → Args → Option Response) :
    Nat → List Nat → List (List Nat) × SessionEnd
  | 0, _ => ([], .outOfFuel)
  | fuel+1, stream =>
    match NewReceiver.Receive stream with
    | .error e => ([], .recvError e)
    | .ok (receiver, rest) =>
      let response := handler receiver.GetCmd receiver.GetArgs
      let sent := if receiver.ShouldRespond then [(receiver.SetResponse response).Send] else []
      if receiver.ShouldClose then (sent, .closedByRequest)
      else
        let cont := newUnixRequestHandler handler fuel rest
        (sent ++ cont.1, cont.2)

/-! ## Client (`client/client.go`) -/

/-- The `unixSockClient` state: configured options, socket path, and the
retained connection with its establishment timestamp.  Connections are
identified by a `Nat`; `conntime` is the stored `time.Time` as unix
seconds. -/
structure unixSockClient where
  maxLength : Nat
  timeout : Nat
  respond : Bool
  close : Bool
  unixSockPath : String
  conn : Option Nat
  conntime : Int

/-- `client.New`: a fresh client holding no connection. -/
def New (UnixSockPath : String) : unixSockClient :=
  { maxLength := 1048576, timeout := 5, respond := true, close := true,
    unixSockPath := UnixSockPath, conn := none, conntime := 0 }

/-- `unixSockClient.reconnect`: reuse the stored connection when one exists
and `now - conntime < 5`; otherwise dial (`dial` is the environment's
answer) and replace the stored connection and timestamp.  The second
component lists the connections closed during the call — always `[]`: the
superseded connection is not closed in the source. -/
def unixSockClient.reconnect (u : unixSockClient) (now : Int)
    (dial : Except String Nat) : Except String (unixSockClient × List Nat) :=
  if u.conn.isSome ∧ now - u.conntime < 5 then .ok (u, [])
  else
    match dial with
    | .error e => .error ("reconnect: could not connect to socket: " ++ e)
    | .ok c => .ok ({ u with conn := some c, conntime := now }, [])

/-- `unixSockClient.Send`: reconnect per policy; build a `NewSender`, apply
`Options`, write its frame (the reliable stream accepts the write); if
`respond`, receive one response frame from `respStream` and return
`GetResponse`, else return no response object.  Result: the transaction
outcome, the bytes written, and the client state after `reconnect`. -/
def unixSockClient.Send (u : unixSockClient) (now : Int)
    (dial : Except String Nat) (cmd : String) (args : Args)
    (respond close : Bool) (respStream : List Nat) :
    Except String (Option Response) × List Nat × unixSockClient :=
  match u.reconnect now dial with
  | .error e => (.error ("Send: could not connect to the unix socket: " ++ e), [], u)
  | .ok (u1, _) =>
    let msg := NewSender cmd args respond close
    let msg := msg.Options u1.maxLength u1.timeout respond close
    if respond then
      match msg.Receive respStream with
      | .error _ => (.error "Send: failed receiving a response", msg.Send, u1)
      | .ok (m, _) => (.ok m.GetResponse, msg.Send, u1)
    else (.ok none, msg.Send, u1)

/-- `unixSockClient.Quit`: close the held connection if present; returns the
connections closed. -/
def unixSockClient.Quit (u : unixSockClient) : List Nat :=
  match u.conn with
  | some c => [c]
  | none => []

/-! ## Round-trip lemmas for the payload codec -/

theorem natParse_natEncAux (fuel : Nat) :
    ∀ n rest, n < fuel → natParse (natEncAux fuel n ++ rest) = some (n, rest) := by
  induction fuel with
  | zero => intro n rest h; omega
  | succ fuel ih =>
    intro n rest h
    by_cases h128 : n < 128
    · simp [natEncAux, h128, natParse]
    · have hne : ¬ (128 + n % 128 < 128) := by omega
      have hdiv : n / 128 < fuel := by omega
      simp [natEncAux, if_neg h128, natParse, if_neg hne, ih (n / 128) rest hdiv]
      omega

theorem natParse_natEnc (n : Nat) (rest : List Nat) :
    natParse (natEnc n ++ rest) = some (n, rest) :=
  natParse_natEncAux (n + 1) n rest (by omega)

theorem natEnc_length_pos (n : Nat) : 0 < (natEnc n).length := by
  simp only [natEnc, natEncAux]
  split <;> simp

theorem parseBool_encBool (b : Bool) (rest : List Nat) :
    parseBool (encBool b ++ rest) = some (b, rest) := by
  cases b <;> simp [encBool, parseBool]

theorem parseInt_encInt (i : Int) (rest : List Nat) :
    parseInt (encInt i ++ rest) = some (i, rest) := by
  by_cases h : i < 0
  · simp only [encInt, if_pos h, List.cons_append, parseInt, natParse_natEnc,
      Option.map_some']
    have heq : -((-i).toNat : Int) = i := by omega
    rw [heq]
  · simp only [encInt, if_neg h, List.cons_append, parseInt, natParse_natEnc,
      Option.map_some']
    have heq : ((i.toNat : Nat) : Int) = i := by omega
    rw [heq]

theorem parseChar_encChar (c : Char) (rest : List Nat) :
    parseChar (encChar c ++ rest) = some (c, rest) := by
  simp [parseChar, encChar, natParse_natEnc, Char.ofNat_toNat]

/-- Parsing `n` values off the concatenated encodings of an `n`-element list
returns the list and the trailing bytes.  The bound `B` is threaded so the
element round trip may assume its input is no longer than `B` (used by the
fuelled `JVal` parser). -/
theorem parseList_encList {α : Type} {p : List Nat → Option (α × List Nat)}
    {f : α → List Nat} {B : Nat} :
    ∀ (xs : List α),
      (∀ x ∈ xs, ∀ r, (f x ++ r).length ≤ B → p (f x ++ r) = some (x, r)) →
      ∀ rest, (encList f xs ++ rest).length ≤ B →
        parseList p xs.length (encList f xs ++ rest) = some (xs, rest) := by
  intro xs
  induction xs with
  | nil => intro _ rest _; simp [encList, parseList]
  | cons x xs ih =>
    intro h rest hlen
    have hx : p (f x ++ (encList f xs ++ rest)) = some (x, encList f xs ++ rest) := by
      apply h x (List.mem_cons_self x xs)
      simp only [encList, List.append_assoc, List.length_append] at hlen ⊢
      omega
    have hxs : parseList p xs.length (encList f xs ++ rest) = some (xs, rest) := by
      apply ih (fun y hy => h y (List.mem_cons_of_mem x hy)) rest
      simp only [encList, List.append_assoc, List.length_append] at hlen ⊢
      omega
    simp only [encList, List.append_assoc, List.length_cons, parseList, hx, hxs]

theorem parseStr_encStr (s : String) (rest : List Nat) :
    parseStr (encStr s ++ rest) = some (s, rest) := by
  have hchars : parseList parseChar s.data.length (encList encChar s.data ++ rest) =
      some (s.data, rest) := by
    apply parseList_encList (B := (encList encChar s.data ++ rest).length)
    · intro c _ r _; exact parseChar_encChar c r
    · exact Nat.le_refl _
  simp only [encStr, List.append_assoc, parseStr, natParse_natEnc, hchars]

theorem encJVal_length_pos (v : JVal) : 0 < (encJVal v).length := by
  cases v <;> simp [encJVal]

theorem encJValList_eq (xs : List JVal) : encJValList xs = encList encJVal xs := by
  induction xs with
  | nil => rfl
  | cons x xs ih => simp [encJValList, encList, ih]

theorem encJValFields_eq (fs : List (String × JVal)) :
    encJValFields fs = encList (fun kv => encStr kv.1 ++ encJVal kv.2) fs := by
  induction fs with
  | nil => rfl
  | cons kv fs ih => simp [encJValFields, encList, ih]

theorem JVal.one_le_sizeOf (v : JVal) : 1 ≤ sizeOf v := by
  cases v <;> (simp; try omega)

/-- Induction over a JSON value, with the inductive hypothesis available for
every member of a sequence and every field value of a mapping (the nested
occurrences of `JVal` under `List`). -/
theorem JVal.memInd {P : JVal → Prop} (hnull : P .null) (hbool : ∀ b, P (.bool b))
    (hnum : ∀ i, P (.num i)) (hstr : ∀ s, P (.str s))
    (harr : ∀ xs, (∀ v ∈ xs, P v) → P (.arr xs))
    (hobj : ∀ fs, (∀ kv ∈ fs, P kv.2) → P (.obj fs)) : ∀ v, P v := by
  have key : ∀ n (v : JVal), sizeOf v ≤ n → P v := by
    intro n
    induction n with
    | zero =>
      intro v hv
      exact absurd hv (by have := JVal.one_le_sizeOf v; omega)
    | succ n ih =>
      intro v hv
      cases v with
      | null => exact hnull
      | bool b => exact hbool b
      | num i => exact hnum i
      | str s => exact hstr s
      | arr xs =>
        refine harr xs (fun x hx => ih x ?_)
        have hm := List.sizeOf_lt_of_mem hx
        simp only [JVal.arr.sizeOf_spec] at hv
        omega
      | obj fs =>
        refine hobj fs (fun kv hkv => ih kv.2 ?_)
        have hm := List.sizeOf_lt_of_mem hkv
        have hkv2 : sizeOf kv.2 < sizeOf kv := by
          obtain ⟨a, b⟩ := kv
          simp only [Prod.mk.sizeOf_spec]
          omega
        simp only [JVal.obj.sizeOf_spec] at hv
        omega
  exact fun v => key (sizeOf v) v (Nat.le_refl _)

/-- Round trip of the JSON value codec: parsing the encoding of `v` with
parser fuel at least the input length returns `v` and the trailing bytes. -/
theorem parseJVal_encJVal :
    ∀ (v : JVal) (pf : Nat) (rest : List Nat),
      (encJVal v ++ rest).length ≤ pf →
      parseJVal pf (encJVal v ++ rest) = some (v, rest) := by
  intro v
  induction v using JVal.memInd with
  | hnull =>
    intro pf rest h
    obtain ⟨pf, rfl⟩ : ∃ q, pf = q + 1 := by
      cases pf with
      | zero => exfalso; simp [encJVal] at h
      | succ q => exact ⟨q, rfl⟩
    simp [encJVal, parseJVal]
  | hbool b =>
    intro pf rest h
    obtain ⟨pf, rfl⟩ : ∃ q, pf = q + 1 := by
      cases pf with
      | zero => exfalso; simp [encJVal] at h
      | succ q => exact ⟨q, rfl⟩
    simp [encJVal, parseJVal, parseBool_encBool]
  | hnum i =>
    intro pf rest h
    obtain ⟨pf, rfl⟩ : ∃ q, pf = q + 1 := by
      cases pf with
      | zero => exfalso; simp [encJVal] at h
      | succ q => exact ⟨q, rfl⟩
    simp [encJVal, parseJVal, parseInt_encInt]
  | hstr s =>
    intro pf rest h
    obtain ⟨pf, rfl⟩ : ∃ q, pf = q + 1 := by
      cases pf with
      | zero => exfalso; simp [encJVal] at h
      | succ q => exact ⟨q, rfl⟩
    simp [encJVal, parseJVal, parseStr_encStr]
  | harr xs ih =>
    intro pf rest h
    obtain ⟨pf, rfl⟩ : ∃ q, pf = q + 1 := by
      cases pf with
      | zero => exfalso; simp [encJVal] at h
      | succ q => exact ⟨q, rfl⟩
    have hlist : parseList (fun b => parseJVal pf b) xs.length
        (encJValList xs ++ rest) = some (xs, rest) := by
      rw [encJValList_eq]
      apply parseList_encList (B := pf)
      · intro x hx r hr
        exact ih x hx pf r hr
      · rw [← encJValList_eq]
        have hp := natEnc_length_pos xs.length
        simp only [encJVal, List.cons_append, List.length_cons, List.length_append] at h
        simp only [encJValList_eq, List.length_append] at h ⊢
        omega
    simp only [encJVal, List.cons_append, List.append_assoc, parseJVal,
      natParse_natEnc, hlist]
  | hobj fs ih =>
    intro pf rest h
    obtain ⟨pf, rfl⟩ : ∃ q, pf = q + 1 := by
      cases pf with
      | zero => exfalso; simp [encJVal] at h
      | succ q => exact ⟨q, rfl⟩
    have hfields : parseList (fun b =>
        match parseStr b with
        | none => none
        | some (k, rk) =>
          match parseJVal pf rk with
          | none => none
          | some (v, rv) => some ((k, v), rv)) fs.length
        (encJValFields fs ++ rest) = some (fs, rest) := by
      rw [encJValFields_eq]
      apply parseList_encList (B := pf)
      · intro kv hkv r hr
        obtain ⟨k, v⟩ := kv
        have hinner : (encJVal v ++ r).length ≤ pf := by
          simp only [List.length_append] at hr ⊢
          omega
        simp only [List.append_assoc, parseStr_encStr, ih (k, v) hkv pf r hinner]
      · rw [← encJValFields_eq]
        have hp := natEnc_length_pos fs.length
        simp only [encJVal, List.cons_append, List.length_cons, List.length_append] at h
        simp only [encJValFields_eq, List.length_append] at h ⊢
        omega
    simp only [encJVal, List.cons_append, List.append_assoc, parseJVal,
      natParse_natEnc, hfields]

theorem parseArgs_encArgs (pf : Nat) (fs : Args) (rest : List Nat)
    (h : (encArgs fs ++ rest).length ≤ pf) :
    parseArgs pf (encArgs fs ++ rest) = some (fs, rest) := by
  have hfields : parseList (fun b =>
      match parseStr b with
      | none => none
      | some (k, rk) =>
        match parseJVal pf rk with
        | none => none
        | some (v, rv) => some ((k, v), rv)) fs.length
      (encJValFields fs ++ rest) = some (fs, rest) := by
    rw [encJValFields_eq]
    apply parseList_encList (B := pf)
    · intro kv hkv r hr
      obtain ⟨k, v⟩ := kv
      have hinner : (encJVal v ++ r).length ≤ pf := by
        simp only [List.length_append] at hr ⊢
        omega
      simp only [List.append_assoc, parseStr_encStr,
        parseJVal_encJVal v pf r hinner]
    · rw [← encJValFields_eq]
      simp only [encArgs, List.append_assoc, List.length_append] at h
      simp only [List.length_append]
      omega
  simp only [encArgs, List.append_assoc, parseArgs, natParse_natEnc, hfields]

theorem parseOptResponse_encOptResponse (r : Option Response) (rest : List Nat) :
    parseOptResponse (encOptResponse r ++ rest) = some (r, rest) := by
  cases r with
  | none => simp [encOptResponse, parseOptResponse]
  | some resp =>
    simp [encOptResponse, parseOptResponse, List.append_assoc, parseStr_encStr]

theorem parsePayload_jsonMarshal (pf : Nat) (s : communicator) (rest : List Nat)
    (h : (jsonMarshal s ++ rest).length ≤ pf) :
    parsePayload pf (jsonMarshal s ++ rest) =
      some (⟨s.Cmd, s.Args, s.Response, s.Respond, s.Close, 0, 0⟩, rest) := by
  have hargs : parseArgs pf
      (encArgs s.Args ++ (encOptResponse s.Response ++
        (encBool s.Respond ++ (encBool s.Close ++ rest)))) =
      some (s.Args, encOptResponse s.Response ++
        (encBool s.Respond ++ (encBool s.Close ++ rest))) := by
    apply parseArgs_encArgs
    simp only [jsonMarshal, List.append_assoc, List.length_append] at h
    simp only [List.length_append]
    omega
  simp only [jsonMarshal, List.append_assoc, parsePayload, parseStr_encStr,
    hargs, parseOptResponse_encOptResponse, parseBool_encBool]

/-- Round trip of the payload serialization: unmarshalling a marshalled
`communicator` rebuilds the five serialized fields on a zero-valued
receiver, exactly as `json.Unmarshal` into `&communicator{}` does. -/
theorem jsonUnmarshal_jsonMarshal (s : communicator) :
    jsonUnmarshal (jsonMarshal s) =
      some ⟨s.Cmd, s.Args, s.Response, s.Respond, s.Close, 0, 0⟩ := by
  have h := parsePayload_jsonMarshal (jsonMarshal s).length s []
    (by simp)
  simp only [List.append_nil] at h
  simp [jsonUnmarshal, h]

/-! ## Framing lemmas -/

theorem length_putUint32 (n : Nat) : (putUint32 n).length = 4 := rfl

theorem beUint32_putUint32 (n : Nat) (h : n < 4294967296) :
    beUint32 (putUint32 n) = n := by
  simp only [beUint32, putUint32, List.foldl]
  omega

/-- The frame produced by `Send` decodes back to the five serialized fields
of the sender, leaving trailing stream bytes unconsumed.  The hypothesis
keeps `uint32(len) + 1` from wrapping. -/
theorem recvFrame_Send (e : communicator) (rest : List Nat)
    (h : (jsonMarshal e).length + 1 < 4294967296) :
    recvFrame (e.Send ++ rest) =
      .ok (⟨e.Cmd, e.Args, e.Response, e.Respond, e.Close, 0, 0⟩, rest) := by
  have hL : toUint32 (jsonMarshal e).length = (jsonMarshal e).length := by
    simp only [toUint32]
    omega
  have hstream : e.Send ++ rest =
      putUint32 (jsonMarshal e).length ++
        (delimByte :: (jsonMarshal e ++ rest)) := by
    simp [communicator.Send, hL, List.append_assoc]
  rw [hstream]
  have hlen : (putUint32 (jsonMarshal e).length ++
      (delimByte :: (jsonMarshal e ++ rest))).length =
      5 + (jsonMarshal e).length + rest.length := by
    simp [length_putUint32]
    omega
  have htake : (putUint32 (jsonMarshal e).length ++
      (delimByte :: (jsonMarshal e ++ rest))).take 4 =
      putUint32 (jsonMarshal e).length :=
    List.take_left' (length_putUint32 _)
  have hdrop : (putUint32 (jsonMarshal e).length ++
      (delimByte :: (jsonMarshal e ++ rest))).drop 4 =
      delimByte :: (jsonMarshal e ++ rest) :=
    List.drop_left' (length_putUint32 _)
  have hbe : beUint32 (putUint32 (jsonMarshal e).length) = (jsonMarshal e).length :=
    beUint32_putUint32 _ (by omega)
  have hmsgLen : toUint32 (beUint32 ((putUint32 (jsonMarshal e).length ++
      (delimByte :: (jsonMarshal e ++ rest))).take 4) + 1) =
      (jsonMarshal e).length + 1 := by
    rw [htake, hbe]
    simp only [toUint32]
    omega
  rw [recvFrame]
  rw [if_neg (by rw [hlen]; omega)]
  simp only [hmsgLen, hdrop]
  rw [if_neg (by simp only [List.length_cons, List.length_append]; omega)]
  have hcontent : (delimByte :: (jsonMarshal e ++ rest)).take
      ((jsonMarshal e).length + 1) = delimByte :: jsonMarshal e := by
    simp only [List.take_succ_cons]
    exact congrArg _ (List.take_left' rfl)
  have hrest : (delimByte :: (jsonMarshal e ++ rest)).drop
      ((jsonMarshal e).length + 1) = rest := by
    simp only [List.drop_succ_cons]
    exact List.drop_left' rfl
  rw [hcontent, hrest]
  simp only [List.drop_succ_cons, List.drop_zero, jsonUnmarshal_jsonMarshal]

/-- `Receive` applied to a frame written by `Send`: the receiver's five
serialized fields are overwritten with the sender's, its option fields are
kept, and the trailing stream is returned unconsumed. -/
theorem Receive_Send (s e : communicator) (rest : List Nat)
    (h : (jsonMarshal e).length + 1 < 4294967296) :
    s.Receive (e.Send ++ rest) =
      .ok ({ s with Cmd := e.Cmd, Args := e.Args, Response := e.Response,
                    Respond := e.Respond, Close := e.Close }, rest) := by
  simp [communicator.Receive, recvFrame_Send e rest h, Except.map]

/-- `Receive` on exactly one frame (no trailing bytes). -/
theorem Receive_Send_nil (s e : communicator)
    (h : (jsonMarshal e).length + 1 < 4294967296) :
    s.Receive e.Send =
      .ok ({ s with Cmd := e.Cmd, Args := e.Args, Response := e.Response,
                    Respond := e.Respond, Close := e.Close }, []) := by
  have hs := Receive_Send s e [] h
  simpa using hs

/-- Any value written by `putUint32` reads back below `2^32`. -/
theorem beUint32_putUint32_lt (n : Nat) : beUint32 (putUint32 n) < 4294967296 := by
  simp only [beUint32, putUint32, List.foldl]
  omega

/-- The handler loop sends nothing on an exhausted stream. -/
theorem newUnixRequestHandler_nil (handler : String → Unixsock.Args → Option Response) :
    ∀ fuel, (newUnixRequestHandler handler fuel []).1 = [] := by
  intro fuel
  cases fuel with
  | zero => rfl
  | succ fuel => rfl

/-- With a successful dial, `reconnect` always succeeds, closes nothing, and
leaves the configured options untouched. -/
theorem reconnect_okDial (u : unixSockClient) (now : Int) (c : Nat) :
    ∃ u1, u.reconnect now (.ok c) = .ok (u1, []) ∧
      u1.maxLength = u.maxLength ∧ u1.timeout = u.timeout := by
  by_cases h : u.conn.isSome ∧ now - u.conntime < 5
  · exact ⟨u, by simp [unixSockClient.reconnect, h], rfl, rfl⟩
  · exact ⟨{ u with conn := some c, conntime := now },
      by simp [unixSockClient.reconnect, h], rfl, rfl⟩

/-! ## The claims -/

/-- C1.  For every Envelope `e` whose encoded payload size is at most
`maxFrameLength` (the default `1 << 20` set by `newCommunicator`), decoding
the frame produced by encoding `e` (`Send`'s frame fed to `Receive`)
reproduces `e`'s command, arguments, response, expectResponse
(`Respond`) and closeAfterThis (`Close`) fields exactly. -/
theorem claim_C1 (e r : communicator)
    (h : (jsonMarshal e).length ≤ 1048576) :
    r.Receive e.Send =
      .ok ({ r with Cmd := e.Cmd, Args := e.Args, Response := e.Response,
                    Respond := e.Respond, Close := e.Close }, []) :=
  Receive_Send_nil r e (by omega)

/-- Witness for C1 at a concrete Envelope with nested arguments. -/
theorem claim_C1_witness :
    (jsonMarshal (NewSender "ping" [("k", .str "v"), ("l", .arr [.null, .num (-3)])]
        true false)).length ≤ 1048576 ∧
    NewReceiver.Receive (NewSender "ping"
        [("k", .str "v"), ("l", .arr [.null, .num (-3)])] true false).Send =
      .ok ({ NewReceiver with
             Cmd := "ping", Args := [("k", .str "v"), ("l", .arr [.null, .num (-3)])],
             Response := some ⟨"", "", ""⟩, Respond := true, Close := false }, []) :=
  ⟨by decide,
   claim_C1 (NewSender "ping" [("k", .str "v"), ("l", .arr [.null, .num (-3)])] true false)
     NewReceiver (by decide)⟩

/-- Classification of `Receive` on truncated streams: fewer than 4 bytes is
the length-read failure; at least 4 bytes but fewer than
`4 + (uint32(L) + 1)` is the content-read failure; and in the wraparound
corner `uint32(L + 1) = 0` (declared length `0xFFFFFFFF`) no content is
read and the empty payload fails to unmarshal — a decode error, not a
framing error. -/
theorem Receive_short_stream (s : communicator) (stream : List Nat) :
    (stream.length < 4 → s.Receive stream = .error .lengthFailed) ∧
    (4 ≤ stream.length →
      stream.length < 4 + toUint32 (beUint32 (stream.take 4) + 1) →
      s.Receive stream = .error .readFailed) ∧
    (4 ≤ stream.length → toUint32 (beUint32 (stream.take 4) + 1) = 0 →
      s.Receive stream = .error .unmarshalFailed) := by
  refine ⟨?_, ?_, ?_⟩
  · intro h
    simp [communicator.Receive, recvFrame, h, Except.map]
  · intro h4 hshort
    simp only [communicator.Receive, recvFrame]
    rw [if_neg (by omega)]
    rw [if_pos (by simp only [List.length_drop]; omega)]
    rfl
  · intro h4 hwrap
    simp only [communicator.Receive, recvFrame, hwrap]
    rw [if_neg (by omega)]
    rw [if_neg (by omega)]
    have hnil : ((stream.drop 4).take 0).drop 1 = [] := by simp
    rw [hnil]
    rfl

/-- C2.  Evaluation at the failing input: the stream consisting of exactly
the 4-byte length prefix `0xFFFFFFFF` ends before delivering the declared
`L + 1 = 2^32` delimiter-plus-payload bytes, yet `Receive` does not fail
with a framing error: `uint32(L) + 1` wraps to `0`, zero content bytes are
read, and the empty payload surfaces as the unmarshal (decode) error. -/
theorem claim_C2 :
    (([255, 255, 255, 255] : List Nat).length : Nat) <
        4 + (beUint32 ([255, 255, 255, 255] : List Nat) + 1) ∧
    NewReceiver.Receive [255, 255, 255, 255] = .error .unmarshalFailed ∧
    RecvError.isFraming .unmarshalFailed = false := by
  refine ⟨by decide, ?_, by decide⟩
  exact (Receive_short_stream NewReceiver [255, 255, 255, 255]).2.2 (by decide) (by decide)

/-- C3.  The server-side handler loop: decode an Envelope, call the handler
with its command and arguments, respond iff the received Envelope's
`Respond` flag is set, terminate iff its `Close` flag is set, else loop.
On a session carrying `e1` (`Respond = true`, `Close = false`) followed by
`e2` (`Respond = true`, `Close = true`) it sends exactly the two response
frames and ends by the close request after the second, for every fuel
budget beyond the two iterations. -/
theorem claim_C3 (handler : String → Unixsock.Args → Option Response)
    (e1 e2 : communicator) (fuel : Nat)
    (h1r : e1.Respond = true) (h1c : e1.Close = false)
    (h2r : e2.Respond = true) (h2c : e2.Close = true)
    (hb1 : (jsonMarshal e1).length + 1 < 4294967296)
    (hb2 : (jsonMarshal e2).length + 1 < 4294967296) :
    newUnixRequestHandler handler (fuel + 2) (e1.Send ++ e2.Send) =
      ([({ NewReceiver with
           Cmd := e1.Cmd, Args := e1.Args, Response := handler e1.Cmd e1.Args,
           Respond := e1.Respond, Close := e1.Close }).Send,
        ({ NewReceiver with
           Cmd := e2.Cmd, Args := e2.Args, Response := handler e2.Cmd e2.Args,
           Respond := e2.Respond, Close := e2.Close }).Send], .closedByRequest) := by
  have hr1 := Receive_Send NewReceiver e1 e2.Send hb1
  have hr2 := Receive_Send_nil NewReceiver e2 hb2
  show newUnixRequestHandler handler (fuel + 1 + 1) (e1.Send ++ e2.Send) = _
  simp only [newUnixRequestHandler, hr1, hr2, communicator.GetCmd,
    communicator.GetArgs, communicator.ShouldRespond, communicator.ShouldClose,
    communicator.SetResponse, h1r, h1c, h2r, h2c, if_true, if_false,
    Bool.false_eq_true, List.singleton_append, List.cons_append, List.nil_append]

/-- Witness for C3: a two-message session against an echoing handler
produces exactly two responses and closes after the second. -/
theorem claim_C3_witness :
    (jsonMarshal (NewSender "a" [] true false)).length + 1 < 4294967296 ∧
    (jsonMarshal (NewSender "b" [] true true)).length + 1 < 4294967296 ∧
    newUnixRequestHandler (fun c _ => some ⟨STATUS_OK, "", c⟩) 2
        ((NewSender "a" [] true false).Send ++ (NewSender "b" [] true true).Send) =
      ([({ NewReceiver with
           Cmd := "a", Args := [], Response := some ⟨STATUS_OK, "", "a"⟩,
           Respond := true, Close := false }).Send,
        ({ NewReceiver with
           Cmd := "b", Args := [], Response := some ⟨STATUS_OK, "", "b"⟩,
           Respond := true, Close := true }).Send], .closedByRequest) :=
  ⟨by decide, by decide,
   claim_C3 (fun c _ => some ⟨STATUS_OK, "", c⟩)
     (NewSender "a" [] true false) (NewSender "b" [] true true) 0
     rfl rfl rfl rfl (by decide) (by decide)⟩

/-- One handler-loop iteration on a single frame: the handler's response is
sent back exactly when the received Envelope's `Respond` flag is set, and
nothing further is sent (on `Close = false` the loop's next receive finds
the stream exhausted; on `Close = true` it stops). -/
theorem newUnixRequestHandler_one (handler : String → Unixsock.Args → Option Response)
    (e : communicator) (fuel : Nat)
    (hb : (jsonMarshal e).length + 1 < 4294967296) :
    (newUnixRequestHandler handler (fuel + 1) e.Send).1 =
      if e.Respond then
        [({ NewReceiver with
            Cmd := e.Cmd, Args := e.Args, Response := handler e.Cmd e.Args,
            Respond := e.Respond, Close := e.Close }).Send]
      else [] := by
  have hr := Receive_Send_nil NewReceiver e hb
  simp only [newUnixRequestHandler, hr, communicator.GetCmd, communicator.GetArgs,
    communicator.ShouldRespond, communicator.ShouldClose, communicator.SetResponse]
  cases hc : e.Close with
  | true => simp
  | false => simp [newUnixRequestHandler_nil]

/-- C4.  An application-level failure produced by the handler is not a
transport error: the server encodes it as a normal response frame
(first conjunct: the session emits exactly that frame), and the client's
`Send` on that frame completes without a transport error, returning the
handler's `Response` with its `failure` status and error string intact
(second conjunct). -/
theorem claim_C4 (u : unixSockClient) (now : Int) (c : Nat)
    (cmd : String) (args : Unixsock.Args) (cl : Bool)
    (handler : String → Unixsock.Args → Option Response) (r : Response) (fuel : Nat)
    (hh : handler cmd args = some r) (hst : r.Status = STATUS_FAIL)
    (herr : r.Error ≠ "")
    (hbreq : (jsonMarshal ((NewSender cmd args true cl).Options
        u.maxLength u.timeout true cl)).length + 1 < 4294967296)
    (hbresp : (jsonMarshal { NewReceiver with
        Cmd := cmd, Args := args, Response := some r, Respond := true,
        Close := cl }).length + 1 < 4294967296) :
    (newUnixRequestHandler handler (fuel + 1)
        ((NewSender cmd args true cl).Options u.maxLength u.timeout true cl).Send).1 =
      [({ NewReceiver with
          Cmd := cmd, Args := args, Response := some r, Respond := true,
          Close := cl }).Send] ∧
    (u.Send now (.ok c) cmd args true cl
        ({ NewReceiver with
           Cmd := cmd, Args := args, Response := some r, Respond := true,
           Close := cl }).Send).1 = .ok (some r) := by
  constructor
  · have h := newUnixRequestHandler_one handler
      ((NewSender cmd args true cl).Options u.maxLength u.timeout true cl) fuel hbreq
    simpa [communicator.Options, NewSender, newCommunicator, hh] using h
  · obtain ⟨u1, hrec, hmax, htime⟩ := reconnect_okDial u now c
    have hresp := Receive_Send_nil
      ((NewSender cmd args true cl).Options u1.maxLength u1.timeout true cl)
      ({ NewReceiver with
         Cmd := cmd, Args := args, Response := some r, Respond := true,
         Close := cl }) hbresp
    simp only [unixSockClient.Send, hrec, hresp, communicator.GetResponse, if_true]

/-- Witness for C4: a handler answering `failure, "unknown command"` reaches
the client as a successful transaction carrying exactly that response. -/
theorem claim_C4_witness :
    (newUnixRequestHandler (fun _ _ => some ⟨STATUS_FAIL, "unknown command", ""⟩) 1
        ((NewSender "op" [] true true).Options 1048576 5 true true).Send).1 =
      [({ NewReceiver with
          Cmd := "op", Args := [], Response := some ⟨STATUS_FAIL, "unknown command", ""⟩,
          Respond := true, Close := true }).Send] ∧
    ((New "/s").Send 0 (.ok 1) "op" [] true true
        ({ NewReceiver with
           Cmd := "op", Args := [], Response := some ⟨STATUS_FAIL, "unknown command", ""⟩,
           Respond := true, Close := true }).Send).1 =
      .ok (some ⟨STATUS_FAIL, "unknown command", ""⟩) :=
  claim_C4 (New "/s") 0 1 "op" [] true
    (fun _ _ => some ⟨STATUS_FAIL, "unknown command", ""⟩)
    ⟨STATUS_FAIL, "unknown command", ""⟩ 0 rfl rfl (by decide) (by decide) (by decide)

/-- C5.  The receive path never consults `maxLength`: `Receive` under any
configured `maxLength` returns the very result it returns under any other
(first conjunct), and in particular a well-formed frame of every declared
length — including lengths strictly above the configured maximum — is
decoded, never rejected (second conjunct, with `maxLength := m`
arbitrary, so also `m` far below the frame's declared length). -/
theorem claim_C5 (s : communicator) (m : Nat) :
    (∀ stream, ({ s with maxLength := m }).Receive stream =
        (s.Receive stream).map fun p => ({ p.1 with maxLength := m }, p.2)) ∧
    (∀ e : communicator, (jsonMarshal e).length + 1 < 4294967296 →
      ({ s with maxLength := m }).Receive e.Send =
        .ok ({ s with
               maxLength := m, Cmd := e.Cmd, Args := e.Args,
               Response := e.Response, Respond := e.Respond,
               Close := e.Close }, [])) := by
  constructor
  · intro stream
    cases h : recvFrame stream with
    | error err => simp [communicator.Receive, h, Except.map]
    | ok p => simp [communicator.Receive, h, Except.map]
  · intro e hb
    exact Receive_Send_nil { s with maxLength := m } e hb

/-- Witness for C5: a receiver configured with `maxLength = 0` still decodes
a frame whose declared length exceeds it. -/
theorem claim_C5_witness :
    0 < (jsonMarshal (NewSender "big" [] true true)).length ∧
    (jsonMarshal (NewSender "big" [] true true)).length + 1 < 4294967296 ∧
    ({ NewReceiver with maxLength := 0 }).Receive (NewSender "big" [] true true).Send =
      .ok ({ NewReceiver with
             maxLength := 0, Cmd := "big", Args := [],
             Response := some ⟨"", "", ""⟩, Respond := true, Close := true }, []) :=
  ⟨by decide, by decide,
   (claim_C5 NewReceiver 0).2 (NewSender "big" [] true true) (by decide)⟩

/-- C6 (amended).  Every frame is the 4-byte big-endian `uint32` length
prefix, one delimiter byte, then the encoded payload; the prefix equals the
payload's byte length reduced modulo `2^32` — hence equals it exactly
whenever the payload is shorter than `2^32` bytes (the `uint32` length
conversion truncates beyond that). -/
theorem claim_C6 (e : communicator) :
    e.Send = putUint32 ((jsonMarshal e).length % 4294967296) ++
        delimByte :: jsonMarshal e ∧
    ((jsonMarshal e).length < 4294967296 →
      beUint32 (e.Send.take 4) = (jsonMarshal e).length) := by
  constructor
  · rfl
  · intro h
    have htake : e.Send.take 4 = putUint32 (toUint32 (jsonMarshal e).length) := by
      simp only [communicator.Send]
      exact List.take_left' (length_putUint32 _)
    rw [htake]
    have ht : toUint32 (jsonMarshal e).length = (jsonMarshal e).length := by
      simp only [toUint32]
      omega
    rw [ht]
    exact beUint32_putUint32 _ h

/-- Witness for C6 on a concrete small frame. -/
theorem claim_C6_witness :
    (jsonMarshal (NewSender "w" [] true true)).length < 4294967296 ∧
    beUint32 ((NewSender "w" [] true true).Send.take 4) =
      (jsonMarshal (NewSender "w" [] true true)).length :=
  ⟨by decide, (claim_C6 (NewSender "w" [] true true)).2 (by decide)⟩

theorem encList_encChar_replicate (n : Nat) :
    (encList encChar (List.replicate n 'a')).length = n := by
  induction n with
  | zero => rfl
  | succ n ih =>
    have ha : encChar 'a' = [97] := rfl
    simp [List.replicate_succ, encList, ha, ih]

/-- An Envelope whose command alone spans `2^32` bytes of payload. -/
def bigEnvelope : communicator :=
  newCommunicator (String.mk (List.replicate 4294967296 'a')) [] none true true

/-- C6 counterexample: for an Envelope with a `2^32`-byte command the length
prefix cannot equal the exact payload byte length — `uint32(len(message))`
truncates, so the prefix reads back below `2^32` while the payload is at
least `2^32` bytes long. -/
theorem claim_C6_cex :
    beUint32 (bigEnvelope.Send.take 4) ≠ (jsonMarshal bigEnvelope).length := by
  have htake : bigEnvelope.Send.take 4 =
      putUint32 (toUint32 (jsonMarshal bigEnvelope).length) := by
    simp only [communicator.Send]
    exact List.take_left' (length_putUint32 _)
  have hlt : beUint32 (bigEnvelope.Send.take 4) < 4294967296 := by
    rw [htake]
    exact beUint32_putUint32_lt _
  have hchars : (encList encChar (List.replicate 4294967296 'a')).length =
      4294967296 := encList_encChar_replicate _
  have hge : 4294967296 ≤ (jsonMarshal bigEnvelope).length := by
    simp only [jsonMarshal, bigEnvelope, newCommunicator, encStr,
      List.append_assoc, List.length_append]
    omega
  omega

/-- C7.  A client send reuses the stored connection exactly when one is
present and its age `now - conntime` is below the 5-unit freshness window;
otherwise the dialed connection replaces the stored one with a fresh
timestamp.  In both cases the list of connections closed by `reconnect` is
empty: the superseded connection is not closed before replacement. -/
theorem claim_C7 (u : unixSockClient) (now : Int) (dial : Except String Nat) :
    ((u.conn.isSome ∧ now - u.conntime < 5) → u.reconnect now dial = .ok (u, [])) ∧
    (¬(u.conn.isSome ∧ now - u.conntime < 5) →
      ∀ c, dial = .ok c →
        u.reconnect now dial = .ok ({ u with conn := some c, conntime := now }, [])) := by
  constructor
  · intro h
    simp [unixSockClient.reconnect, h]
  · intro h c hc
    subst hc
    simp [unixSockClient.reconnect, h]

/-- Witness for C7: a 2-unit-old connection is reused; an 90-unit-old one is
replaced by the freshly dialed connection, and neither call closes
anything. -/
theorem claim_C7_witness :
    (({ maxLength := 1048576, timeout := 5, respond := true, close := true,
        unixSockPath := "/s", conn := some 3, conntime := 10 } : unixSockClient).conn.isSome ∧
        (12 : Int) - 10 < 5) ∧
    ({ maxLength := 1048576, timeout := 5, respond := true, close := true,
       unixSockPath := "/s", conn := some 3, conntime := 10 } : unixSockClient).reconnect 12 (.ok 9) =
      .ok ({ maxLength := 1048576, timeout := 5, respond := true, close := true,
             unixSockPath := "/s", conn := some 3, conntime := 10 }, []) ∧
    ¬(({ maxLength := 1048576, timeout := 5, respond := true, close := true,
         unixSockPath := "/s", conn := some 3, conntime := 10 } : unixSockClient).conn.isSome ∧
        (100 : Int) - 10 < 5) ∧
    ({ maxLength := 1048576, timeout := 5, respond := true, close := true,
       unixSockPath := "/s", conn := some 3, conntime := 10 } : unixSockClient).reconnect 100 (.ok 9) =
      .ok ({ maxLength := 1048576, timeout := 5, respond := true, close := true,
             unixSockPath := "/s", conn := some 9, conntime := 100 }, []) :=
  ⟨⟨by decide, by decide⟩,
   (claim_C7 _ 12 (.ok 9)).1 ⟨by decide, by decide⟩,
   (by decide),
   (claim_C7 _ 100 (.ok 9)).2 (by decide) 9 rfl⟩

/-- C8.  With a live connection and a successful write: a send with
`expectResponse = false` returns immediately with no response object and no
error, independently of anything the peer might later send; a send with
`expectResponse = true` decodes exactly one response frame — the result is
the decoded first frame's `Response` and does not depend on bytes beyond
that frame. -/
theorem claim_C8 (u : unixSockClient) (now : Int) (c : Nat)
    (cmd : String) (args : Unixsock.Args) (cl : Bool) :
    (∀ respStream, (u.Send now (.ok c) cmd args false cl respStream).1 = .ok none) ∧
    (∀ (env : communicator) (rest : List Nat),
      (jsonMarshal env).length + 1 < 4294967296 →
      (u.Send now (.ok c) cmd args true cl (env.Send ++ rest)).1 = .ok env.Response) := by
  obtain ⟨u1, hrec, hmax, htime⟩ := reconnect_okDial u now c
  constructor
  · intro respStream
    simp [unixSockClient.Send, hrec]
  · intro env rest hb
    have hresp := Receive_Send
      ((NewSender cmd args true cl).Options u1.maxLength u1.timeout true cl) env rest hb
    simp [unixSockClient.Send, hrec, hresp, communicator.GetResponse]

/-- Witness for C8: no-response send returns `ok none`; response send
returns the decoded first frame's response and ignores trailing bytes. -/
theorem claim_C8_witness :
    ((New "/s").Send 7 (.ok 2) "cmd" [] false true [1, 2, 3]).1 = .ok none ∧
    (jsonMarshal (NewSender "r" [] true true)).length + 1 < 4294967296 ∧
    ((New "/s").Send 7 (.ok 2) "cmd" [] true true
        ((NewSender "r" [] true true).Send ++ [9])).1 = .ok (some ⟨"", "", ""⟩) :=
  ⟨(claim_C8 (New "/s") 7 2 "cmd" [] true).1 [1, 2, 3],
   by decide,
   (claim_C8 (New "/s") 7 2 "cmd" [] true).2 (NewSender "r" [] true true) [9] (by decide)⟩

/-- The spec's status invariant on an optional `Response`: the status, when
set (non-empty), is one of the two constants `STATUS_OK`, `STATUS_FAIL`. -/
def validStatus : Option Response → Prop
  | none => True
  | some resp => resp.Status = "" ∨ resp.Status = STATUS_OK ∨ resp.Status = STATUS_FAIL

/-- C9 (amended).  The codec preserves the status invariant: decoding a
frame encoded from an Envelope whose response status is unset or one of the
two constants yields an Envelope satisfying the same invariant.  (Decoding
does not itself establish the invariant on arbitrary well-framed bytes —
see the counterexample.) -/
theorem claim_C9 (e s : communicator)
    (hb : (jsonMarshal e).length + 1 < 4294967296)
    (hv : validStatus e.Response) :
    ∀ res rest2, s.Receive e.Send = .ok (res, rest2) → validStatus res.Response := by
  intro res rest2 hrec
  rw [Receive_Send_nil s e hb] at hrec
  simp only [Except.ok.injEq, Prod.mk.injEq] at hrec
  obtain ⟨hres, -⟩ := hrec
  rw [← hres]
  exact hv

/-- Witness for C9: a round trip of an Envelope carrying an empty status. -/
theorem claim_C9_witness :
    (jsonMarshal (NewSender "q" [] true true)).length + 1 < 4294967296 ∧
    validStatus (NewSender "q" [] true true).Response ∧
    validStatus ({ NewReceiver with
        Cmd := "q", Args := [], Response := some ⟨"", "", ""⟩,
        Respond := true, Close := true } : communicator).Response :=
  ⟨by decide, Or.inl rfl,
   claim_C9 (NewSender "q" [] true true) NewReceiver (by decide) (Or.inl rfl)
     ({ NewReceiver with
        Cmd := "q", Args := [], Response := some ⟨"", "", ""⟩,
        Respond := true, Close := true }) []
     (Receive_Send_nil NewReceiver (NewSender "q" [] true true) (by decide))⟩

/-- C9 counterexample: well-framed wire bytes whose response status is the
string `"banana"` decode successfully into an Envelope whose status is set
but is neither `success` nor `failure` — `Receive` performs no status
validation. -/
theorem claim_C9_cex :
    NewReceiver.Receive (newCommunicator "x" [] (some ⟨"banana", "", ""⟩) true true).Send =
      .ok ({ NewReceiver with
             Cmd := "x", Args := [], Response := some ⟨"banana", "", ""⟩,
             Respond := true, Close := true }, []) ∧
    ¬ validStatus (some (⟨"banana", "", ""⟩ : Response)) := by
  constructor
  · rfl
  · simp only [validStatus]
    decide

/-- C10.  `Receive` never validates the delimiter byte: two streams that
differ only in the byte at position 4 (the delimiter slot) produce the very
same result — the byte is discarded without comparison, whatever its
value. -/
theorem claim_C10 (s : communicator) (b0 b1 b2 b3 d1 d2 : Nat) (rest : List Nat) :
    s.Receive (b0 :: b1 :: b2 :: b3 :: d1 :: rest) =
      s.Receive (b0 :: b1 :: b2 :: b3 :: d2 :: rest) := by
  suffices h : recvFrame (b0 :: b1 :: b2 :: b3 :: d1 :: rest) =
      recvFrame (b0 :: b1 :: b2 :: b3 :: d2 :: rest) by
    simp [communicator.Receive, h]
  have htake1 : (b0 :: b1 :: b2 :: b3 :: d1 :: rest).take 4 = [b0, b1, b2, b3] := rfl
  have htake2 : (b0 :: b1 :: b2 :: b3 :: d2 :: rest).take 4 = [b0, b1, b2, b3] := rfl
  have hdrop1 : (b0 :: b1 :: b2 :: b3 :: d1 :: rest).drop 4 = d1 :: rest := rfl
  have hdrop2 : (b0 :: b1 :: b2 :: b3 :: d2 :: rest).drop 4 = d2 :: rest := rfl
  simp only [recvFrame, htake1, htake2, hdrop1, hdrop2, List.length_cons]
  have h45 : ¬ (rest.length + 1 + 1 + 1 + 1 + 1 < 4) := by omega
  rw [if_neg h45, if_neg h45]
  generalize toUint32 (beUint32 [b0, b1, b2, b3] + 1) = m
  by_cases hlt : rest.length + 1 < m
  · rw [if_pos hlt, if_pos hlt]
  · rw [if_neg hlt, if_neg hlt]
    cases m with
    | zero =>
      have hnone : jsonUnmarshal (((d1 :: rest).take 0).drop 1) = none := rfl
      have hnone2 : jsonUnmarshal (((d2 :: rest).take 0).drop 1) = none := rfl
      rw [hnone, hnone2]
    | succ k =>
      have hc1 : ((d1 :: rest).take (k + 1)).drop 1 = rest.take k := by
        simp [List.take_succ_cons]
      have hc2 : ((d2 :: rest).take (k + 1)).drop 1 = rest.take k := by
        simp [List.take_succ_cons]
      have hd1 : (d1 :: rest).drop (k + 1) = rest.drop k := rfl
      have hd2 : (d2 :: rest).drop (k + 1) = rest.drop k := rfl
      rw [hc1, hc2, hd1, hd2]

end Unixsock
